import Mathlib

/-!
# CodeIQ — verification of the scoring / filtering / graph-construction core

The repository's presentation layer (React forms and API clients) is embedded
from its sources.  The analysis core (importance scorer, CFG/PDG builders,
artifact store) is exposed to that layer through the `start`,
`generateFileCfg` and `generateIr` operations; its behaviour is modelled from
the specification, faithfully to the spec's wording, with scores as exact
rationals.
-/

namespace CodeIQ

/-- Modelled from the spec: a `FunctionSymbol` of an `IRRecord` — name,
parameter names, and the ordered call-sites recorded with the literal callee
text (resolution happens later, in the CFG builder). -/
structure FunctionSymbol where
  name : String
  params : List String
  callSites : List String
  deriving DecidableEq, Repr

/-- Modelled from the spec: the per-file `IRRecord` — ordered function
symbols plus aggregate counts (class count, import count, line count). -/
structure IRRecord where
  functions : List FunctionSymbol
  classCount : Nat
  importCount : Nat
  lineCount : Nat
  deriving DecidableEq, Repr

/-- Modelled from the spec: a `SourceFile` with its repo-relative path and
the `IRRecord` owned by it. -/
structure SourceFile where
  path : String
  ir : IRRecord
  deriving DecidableEq, Repr

/-- Modelled from the spec: `fan_out(f)` = count of call-sites in `f`. -/
def fanOut (f : SourceFile) : Nat :=
  (f.ir.functions.map (fun g => g.callSites.length)).sum

/-- Names of the functions defined in a file. -/
def definedNames (f : SourceFile) : List String :=
  f.ir.functions.map (fun g => g.name)

/-- Modelled from the spec: `fan_in(f)` = count of call-sites elsewhere in
the run whose callee name matches a `FunctionSymbol` defined in `f`. -/
def fanIn (repo : List SourceFile) (f : SourceFile) : Nat :=
  ((repo.filter (fun g => g.path ≠ f.path)).map (fun g =>
    (g.ir.functions.map (fun h =>
      (h.callSites.filter (fun c => c ∈ definedNames f)).length)).sum)).sum

/-- Modelled from the spec: the repo's median file line count (middle element
of the sorted line counts; `0` for an empty repository). -/
def medianLineCount (repo : List SourceFile) : Nat :=
  let sorted := List.insertionSort (· ≤ ·) (repo.map (fun f => f.ir.lineCount))
  sorted.getD (sorted.length / 2) 0

/-- Modelled from the spec: `normalized_size(f)` = line count divided by the
repo's median file line count (exact rational; division by a zero median
yields `0`, Lean's convention for `x / 0`). -/
def normalizedSize (repo : List SourceFile) (f : SourceFile) : ℚ :=
  (f.ir.lineCount : ℚ) / (medianLineCount repo : ℚ)

/-- Modelled from the spec: the scoring weights, a fixed tunable
configuration (not computed statistically). -/
structure Weights where
  w1 : ℚ
  w2 : ℚ
  w3 : ℚ
  w4 : ℚ
  w5 : ℚ
  deriving DecidableEq, Repr

/-- Modelled from the spec: the importance score,
`w1*functions(f) + w2*classes(f) + w3*fan_in(f) + w4*fan_out(f)
 - w5*normalized_size(f)`, one rational per file, a pure function of the
file's `IRRecord` and repo-wide aggregates. -/
def score (W : Weights) (repo : List SourceFile) (f : SourceFile) : ℚ :=
  W.w1 * (f.ir.functions.length : ℚ) + W.w2 * (f.ir.classCount : ℚ)
    + W.w3 * (fanIn repo f : ℚ) + W.w4 * (fanOut f : ℚ)
    - W.w5 * normalizedSize repo f

/-- Modelled from the spec: the selected set — a file is selected iff
`score(f) >= threshold` (ties at the boundary included). -/
def selectedFiles (W : Weights) (repo : List SourceFile) (t : ℤ) :
    List SourceFile :=
  repo.filter (fun f => (t : ℚ) ≤ score W repo f)

/-- Modelled from the spec: the excluded set — the files with
`score(f) < threshold`; together with the selected set it partitions the
analyzed files. -/
def excludedFiles (W : Weights) (repo : List SourceFile) (t : ℤ) :
    List SourceFile :=
  repo.filter (fun f => ¬ (t : ℚ) ≤ score W repo f)

/-- A `{path, score}` entry as reported to the caller. -/
structure ScoredFile where
  path : String
  fscore : ℚ
  deriving DecidableEq, Repr

/-- Report entry for a file. -/
def toScored (W : Weights) (repo : List SourceFile) (f : SourceFile) :
    ScoredFile :=
  ⟨f.path, score W repo f⟩

/-- Descending order on report entries: higher score first. -/
def scoreGE (a b : ScoredFile) : Prop := b.fscore ≤ a.fscore

instance : DecidableRel scoreGE := fun a b =>
  inferInstanceAs (Decidable (b.fscore ≤ a.fscore))

instance : IsTotal ScoredFile scoreGE :=
  ⟨fun a b => le_total b.fscore a.fscore⟩

instance : IsTrans ScoredFile scoreGE :=
  ⟨fun _ _ _ h1 h2 => le_trans h2 h1⟩

/-- Modelled from the spec: the excluded files sorted by score, descending. -/
def excludedSorted (W : Weights) (repo : List SourceFile) (t : ℤ) :
    List ScoredFile :=
  List.insertionSort scoreGE ((excludedFiles W repo t).map (toScored W repo))

/-- Modelled from the spec: excluded-file reporting capped to the top 20 by
score among the excluded set. -/
def excludedReport (W : Weights) (repo : List SourceFile) (t : ℤ) :
    List ScoredFile :=
  (excludedSorted W repo t).take 20

/-- Run-level statistics as returned by `start`. -/
structure Statistics where
  files_analyzed : Nat
  total_functions : Nat
  total_classes : Nat
  total_imports : Nat
  deriving DecidableEq, Repr

/-- The filtering block of a `start` result: threshold, exact (uncapped)
counts, the uncapped selected list and the capped excluded list. -/
structure Filtering where
  threshold : ℤ
  selected_count : Nat
  excluded_count : Nat
  selected_files : List ScoredFile
  excluded_files : List ScoredFile
  deriving DecidableEq, Repr

/-- The full `start` result. -/
structure StartResult where
  message : String
  repo_name : String
  statistics : Statistics
  filtering : Filtering
  deriving DecidableEq, Repr

/-- Modelled from the spec: the analysis run over an already-resolved file
set — statistics, partition into selected/excluded against the threshold,
and the reporting policy (selected uncapped, excluded capped to top 20). -/
def runAnalysis (W : Weights) (repoName : String) (files : List SourceFile)
    (t : ℤ) : StartResult :=
  { message := "Repository analyzed"
    repo_name := repoName
    statistics :=
      { files_analyzed := files.length
        total_functions := (files.map (fun f => f.ir.functions.length)).sum
        total_classes := (files.map (fun f => f.ir.classCount)).sum
        total_imports := (files.map (fun f => f.ir.importCount)).sum }
    filtering :=
      { threshold := t
        selected_count := (selectedFiles W files t).length
        excluded_count := (excludedFiles W files t).length
        selected_files := (selectedFiles W files t).map (toScored W files)
        excluded_files := excludedReport W files t } }

/-- Validation failure of the `start` operation. -/
inductive StartError where
  | inputError (msg : String)
  deriving DecidableEq, Repr

/-- Modelled from the spec: the `start(repo_identifier, threshold)`
operation.  It fails with a validation error, before any parsing, when the
threshold is outside `[1,10]` or when the repository identifier cannot be
resolved by the collaborator responsible for fetching source files
(modelled as a resolver function); otherwise it runs the analysis. -/
def start (W : Weights) (resolve : String → Option (List SourceFile))
    (repoId : String) (t : ℤ) : Except StartError StartResult :=
  if t < 1 ∨ 10 < t then
    Except.error (StartError.inputError "threshold out of range")
  else
    match resolve repoId with
    | none => Except.error (StartError.inputError "repository not resolved")
    | some files => Except.ok (runAnalysis W repoId files t)

/-- Outcome of a frontend form submission: either a client-side validation
message (no HTTP request issued) or a request sent to the backend with the
given body. -/
inductive SubmitOutcome where
  | validationMessage (msg : String)
  | requestSent (repo_url : String) (threshold : ℤ)
  deriving DecidableEq, Repr

/-- Modelled from the spec: the statement shapes the CFG builder
distinguishes — straight-line statements (with the variables they define and
use), call-sites, `return`-equivalents, conditionals and loops. -/
inductive Stmt where
  | assign (defs uses : List String)
  | callSt (callee : String) (args : List String)
  | ret
  | cond (uses : List String) (thenB elseB : List Stmt)
  | loop (uses : List String) (body : List Stmt)

/-- Node kinds of the CFG: entry, exit, basic-block, branch, call. -/
inductive NodeKind where
  | entry
  | exitNode
  | block
  | branch
  | callNode (callee : String)
  deriving DecidableEq, Repr

/-- A CFG node: local id, kind, and the variables defined/used by the
statements folded into it (used by the PDG's reaching-definitions pass). -/
structure CFGNode where
  id : Nat
  kind : NodeKind
  defs : List String
  uses : List String
  deriving DecidableEq, Repr

/-- Edge kinds of the CFG. -/
inductive EdgeKind where
  | sequential
  | trueBranch
  | falseBranch
  | loopBack
  | callEdge
  | returnEdge
  deriving DecidableEq, Repr

/-- An intra-procedural CFG edge between local node ids. -/
structure CFGEdge where
  src : Nat
  tgt : Nat
  kind : EdgeKind
  deriving DecidableEq, Repr

/-- State threaded through the single pass of the CFG builder: fresh-id
counter, accumulated nodes/edges, the call-sites collected for later
resolution, the current attach point (`none` after a `return`, so dead code
is attached as unreachable rather than dropped), the kind of the next
attached edge, and whether the attach point is an extendable basic block. -/
structure Builder where
  nextId : Nat
  nodes : List CFGNode
  edges : List CFGEdge
  calls : List (Nat × String)
  cur : Option Nat
  pending : EdgeKind
  inBlock : Bool
  deriving DecidableEq, Repr

/-- Edge from the current attach point to `tgt`, when one exists. -/
def attachEdge (st : Builder) (tgt : Nat) : List CFGEdge :=
  match st.cur with
  | some c => st.edges ++ [⟨c, tgt, st.pending⟩]
  | none => st.edges

/-- Allocate a fresh node, link it from the current attach point, and make
it the new attach point. -/
def allocNode (k : NodeKind) (d u : List String) (st : Builder) : Builder :=
  { nextId := st.nextId + 1
    nodes := st.nodes ++ [⟨st.nextId, k, d, u⟩]
    edges := attachEdge st st.nextId
    calls := st.calls
    cur := some st.nextId
    pending := EdgeKind.sequential
    inBlock := false }

/-- Fold a straight-line statement into the open basic block `b`. -/
def extendBlock (b : Nat) (d u : List String) (st : Builder) : Builder :=
  { st with nodes := st.nodes.map (fun n =>
      if n.id = b then { n with defs := n.defs ++ d, uses := n.uses ++ u }
      else n) }

/-- Modelled from the spec: one basic-block node per maximal straight-line
run — a straight-line statement extends the open block or opens a new one. -/
def stepAssign (d u : List String) (st : Builder) : Builder :=
  match st.cur, st.inBlock with
  | some b, true => extendBlock b d u st
  | _, _ => { allocNode NodeKind.block d u st with inBlock := true }

/-- Modelled from the spec: a call-site becomes a CFG node of kind call and
is recorded for lazy resolution during global stitching. -/
def stepCall (c : String) (args : List String) (st : Builder) : Builder :=
  let st' := allocNode (NodeKind.callNode c) [] args st
  { st' with calls := st'.calls ++ [(st.nextId, c)] }

/-- Modelled from the spec: a `return`-equivalent terminates the current
block with an edge directly to the exit node (local id 1); following
statements become unreachable annotations. -/
def stepRet (st : Builder) : Builder :=
  { st with edges := attachEdge st 1, cur := none, inBlock := false }

/-- Join node closing a conditional: linked from both arms (`c1` with its
recorded edge kind, and the current attach point). -/
def allocJoin (c1 : Option Nat) (k1 : EdgeKind) (st : Builder) : Builder :=
  let st' := allocNode NodeKind.block [] [] st
  match c1 with
  | some c => { st' with edges := st'.edges ++ [⟨c, st.nextId, k1⟩] }
  | none => st'

/-- Loop-back edge from the end of a loop body to the condition node `b`. -/
def addLoopBack (b : Nat) (st : Builder) : Builder :=
  match st.cur with
  | some c => { st with edges := st.edges ++ [⟨c, b, EdgeKind.loopBack⟩] }
  | none => st

/-- Enter an arm hanging off branch node `b`: the next attached edge leaves
`b` with kind `k`. -/
def enterArm (b : Nat) (k : EdgeKind) (st : Builder) : Builder :=
  { st with cur := some b, pending := k, inBlock := false }

/-- Mark the attach point as an extendable basic block. -/
def reopenBlock (st : Builder) : Builder :=
  { st with inBlock := true }

/-- Modelled from the spec: the single pass of the CFG builder over a
statement sequence — blocks coalesce straight-line runs, conditionals build
a branch node with true/false arms meeting at a join node, loops build a
branch node with a loop-back edge, returns edge to exit. -/
def buildStmts : List Stmt → Builder → Builder
  | [], st => st
  | Stmt.assign d u :: rest, st => buildStmts rest (stepAssign d u st)
  | Stmt.callSt c a :: rest, st => buildStmts rest (stepCall c a st)
  | Stmt.ret :: rest, st => buildStmts rest (stepRet st)
  | Stmt.cond u tb eb :: rest, st =>
      let b := st.nextId
      let st0 := allocNode NodeKind.branch [] u st
      let st1 := buildStmts tb (enterArm b EdgeKind.trueBranch st0)
      let st2 := buildStmts eb (enterArm b EdgeKind.falseBranch st1)
      let st3 := allocJoin st1.cur st1.pending st2
      buildStmts rest (reopenBlock st3)
  | Stmt.loop u body :: rest, st =>
      let b := st.nextId
      let st0 := allocNode NodeKind.branch [] u st
      let st1 := buildStmts body (enterArm b EdgeKind.trueBranch st0)
      let st2 := addLoopBack b st1
      buildStmts rest (enterArm b EdgeKind.falseBranch st2)

/-- The ordered callee names of every call-site in a statement sequence,
matching the IR's recorded call-sites. -/
def callsOf : List Stmt → List String
  | [] => []
  | Stmt.assign _ _ :: r => callsOf r
  | Stmt.callSt c _ :: r => c :: callsOf r
  | Stmt.ret :: r => callsOf r
  | Stmt.cond _ tb eb :: r => callsOf tb ++ callsOf eb ++ callsOf r
  | Stmt.loop _ body :: r => callsOf body ++ callsOf r

/-- Upper bound on the number of CFG nodes a statement sequence creates. -/
def stmtWeight : List Stmt → Nat
  | [] => 0
  | Stmt.assign _ _ :: r => 1 + stmtWeight r
  | Stmt.callSt _ _ :: r => 1 + stmtWeight r
  | Stmt.ret :: r => stmtWeight r
  | Stmt.cond _ tb eb :: r => 2 + stmtWeight tb + stmtWeight eb + stmtWeight r
  | Stmt.loop _ body :: r => 1 + stmtWeight body + stmtWeight r

/-- A function definition as the CFG builder consumes it. -/
structure FnDef where
  name : String
  body : List Stmt

/-- Fresh builder for one function: entry node (id 0) and exit node (id 1),
building starts at the entry. -/
def initBuilder : Builder :=
  { nextId := 2
    nodes := [⟨0, NodeKind.entry, [], []⟩, ⟨1, NodeKind.exitNode, [], []⟩]
    edges := []
    calls := []
    cur := some 0
    pending := EdgeKind.sequential
    inBlock := false }

/-- The per-function CFG: exactly one entry (id 0) and one exit (id 1),
plus the collected call-sites awaiting resolution. -/
structure FnCfg where
  fname : String
  nodes : List CFGNode
  edges : List CFGEdge
  calls : List (Nat × String)
  deriving DecidableEq, Repr

/-- Modelled from the spec: build one function's CFG — run the single pass
over the body and close the fall-through path into the exit node. -/
def buildFn (f : FnDef) : FnCfg :=
  let st := buildStmts f.body initBuilder
  ⟨f.name, st.nodes, attachEdge st 1, st.calls⟩

/-- Global node/edge identity is qualified by function name plus local id. -/
structure GEdge where
  srcFn : String
  srcId : Nat
  tgtFn : String
  tgtId : Nat
  kind : EdgeKind
  deriving DecidableEq, Repr

/-- Modelled from the spec: lazy callee resolution against the run's frozen
symbol table. -/
def lookupFn (tbl : List FnDef) (c : String) : Option FnDef :=
  tbl.find? (fun f => f.name == c)

/-- Modelled from the spec: a resolved call-site contributes a call edge to
the callee's entry node and a return edge from the callee's exit node back
to the call site; an unresolved callee contributes no edge. -/
def callStitch (tbl : List FnDef) (f : FnDef) (cs : Nat × String) :
    List GEdge :=
  match lookupFn tbl cs.2 with
  | some h => [⟨f.name, cs.1, h.name, 0, EdgeKind.callEdge⟩,
               ⟨h.name, 1, f.name, cs.1, EdgeKind.returnEdge⟩]
  | none => []

/-- All call/return edges of a run, computed over the explicit edge set
(never by unbounded recursive walk, so recursion cannot diverge). -/
def callEdges (tbl : List FnDef) : List GEdge :=
  tbl.flatMap (fun f => (buildFn f).calls.flatMap (callStitch tbl f))

/-- The whole-program CFG: disjoint union of the per-function CFGs plus the
call/return edges. -/
structure GlobalCfg where
  nodes : List (String × CFGNode)
  edges : List GEdge
  deriving DecidableEq, Repr

/-- Modelled from the spec: the global CFG of a run. -/
def globalCfg (tbl : List FnDef) : GlobalCfg :=
  { nodes := tbl.flatMap (fun f =>
      (buildFn f).nodes.map (fun n => (f.name, n)))
    edges := tbl.flatMap (fun f =>
      (buildFn f).edges.map (fun e => ⟨f.name, e.src, f.name, e.tgt, e.kind⟩))
      ++ callEdges tbl }

/-- Local node ids of a per-function CFG. -/
def allIds (g : FnCfg) : List Nat := g.nodes.map (fun n => n.id)

/-- Predecessors of a node in the per-function CFG edge set. -/
def preds (g : FnCfg) (n : Nat) : List Nat :=
  (g.edges.filter (fun e => e.tgt == n)).map (fun e => e.src)

/-- Lookup in an association table with `[]` as default. -/
def lookupTab {α : Type} (tab : List (Nat × List α)) (n : Nat) : List α :=
  match tab.find? (fun p => p.1 == n) with
  | some p => p.2
  | none => []

/-- Intersection of a family of sets, with a given universe for the empty
family. -/
def interAll : List (List Nat) → List Nat → List Nat
  | [], univ => univ
  | [s], _ => s
  | s :: rest, univ => s.inter (interAll rest univ)

/-- One round of the iterative dominator computation: the entry (id 0)
dominates only itself; any other node is dominated by itself plus every
common dominator of its predecessors. -/
def domStep (g : FnCfg) (tab : List (Nat × List Nat)) :
    List (Nat × List Nat) :=
  (allIds g).map (fun n =>
    if n == 0 then (n, [0])
    else (n, n :: (interAll ((preds g n).map (lookupTab tab))
            (allIds g)).filter (fun m => m != n)))

/-- Initial dominator table: everything dominates everything but the entry. -/
def domInit (g : FnCfg) : List (Nat × List Nat) :=
  (allIds g).map (fun n => if n == 0 then (n, [0]) else (n, allIds g))

/-- Modelled from the spec: dominators as an iterative fixed-point over the
CFG, run for enough rounds to stabilize. -/
def domTable (g : FnCfg) : List (Nat × List Nat) :=
  (domStep g)^[g.nodes.length + 1] (domInit g)

/-- Dominance-frontier membership: `b` is in the dominance frontier of the
computation at `m` when `b` dominates a predecessor of `m` without strictly
dominating `m` itself. -/
def inDomFrontier (g : FnCfg) (tab : List (Nat × List Nat)) (b m : Nat) :
    Bool :=
  (preds g m).any (fun p => (lookupTab tab p).contains b)
    && (b == m || !((lookupTab tab m).contains b))

/-- A PDG edge kind: control dependence, or data dependence on a variable. -/
inductive DepKind where
  | controlDep
  | dataDep (v : String)
  deriving DecidableEq, Repr

/-- A dependence edge superimposed on the CFG's nodes. -/
structure DepEdge where
  src : Nat
  tgt : Nat
  kind : DepKind
  deriving DecidableEq, Repr

/-- Modelled from the spec: control-dependence edges — a node is
control-dependent on a branch node that decides whether it executes,
derived from the dominance frontier over the CFG. -/
def controlDepEdges (g : FnCfg) : List DepEdge :=
  let tab := domTable g
  (g.nodes.filter (fun n => n.kind == NodeKind.branch)).flatMap (fun b =>
    ((allIds g).filter (fun m => inDomFrontier g tab b.id m)).map (fun m =>
      ⟨b.id, m, DepKind.controlDep⟩))

/-- The definition sites of one node: one `(id, variable)` pair per defined
variable. -/
def defsAt (n : CFGNode) : List (Nat × String) :=
  n.defs.map (fun v => (n.id, v))

/-- Definitions flowing out of node `p`: its own definitions plus the
incoming ones it does not kill. -/
def reachOut (g : FnCfg) (tab : List (Nat × List (Nat × String)))
    (p : Nat) : List (Nat × String) :=
  match g.nodes.find? (fun n => n.id == p) with
  | none => []
  | some np =>
      defsAt np ++ (lookupTab tab p).filter (fun d => !(np.defs.contains d.2))

/-- One round of the reaching-definitions fixed-point: the definitions
reaching a node are those flowing out of its predecessors. -/
def reachStep (g : FnCfg) (tab : List (Nat × List (Nat × String))) :
    List (Nat × List (Nat × String)) :=
  (allIds g).map (fun n => (n, (preds g n).flatMap (reachOut g tab)))

/-- Initial reaching-definitions table: nothing reaches anything. -/
def reachInit (g : FnCfg) : List (Nat × List (Nat × String)) :=
  (allIds g).map (fun n => (n, []))

/-- Modelled from the spec: reaching definitions as an iterative fixed-point
over the CFG, run until no node's set can change. -/
def reachTable (g : FnCfg) : List (Nat × List (Nat × String)) :=
  (reachStep g)^[g.nodes.length * (g.nodes.map
    (fun n => n.defs.length)).sum + 1] (reachInit g)

/-- Modelled from the spec: data-dependence edges — from a definition site
to each use it reaches along a definition-clear path, labeled with the
variable. -/
def dataDepEdges (g : FnCfg) : List DepEdge :=
  let tab := reachTable g
  g.nodes.flatMap (fun n =>
    ((lookupTab tab n.id).filter (fun d => n.uses.contains d.2)).map
      (fun d => ⟨d.1, n.id, DepKind.dataDep d.2⟩))

/-- The PDG: the CFG's nodes and edges unchanged, plus dependence edges. -/
structure PDG where
  nodes : List CFGNode
  cfgEdges : List CFGEdge
  depEdges : List DepEdge
  deriving DecidableEq, Repr

/-- Modelled from the spec: PDG construction as a strict edge-set
superimposition over the function's completed CFG. -/
def pdgOf (g : FnCfg) : PDG :=
  ⟨g.nodes, g.edges, controlDepEdges g ++ dataDepEdges g⟩

/-- The cached IR of one analyzed file, as the artifact store keeps it. -/
structure FileIR where
  path : String
  fns : List FnDef

/-- A cached analysis run, keyed by repository name. -/
structure RunCache where
  repoName : String
  threshold : ℤ
  selectedPaths : List String
  files : List FileIR

/-- The cached function definitions of one file of a run. -/
def fileFns (run : RunCache) (p : String) : List FnDef :=
  match run.files.find? (fun fi => fi.path == p) with
  | some fi => fi.fns
  | none => []

/-- Modelled from the spec: one file's CFG, built on demand from the cached
IR without re-parsing the repository. -/
def fileGraph (run : RunCache) (p : String) : GlobalCfg :=
  globalCfg (fileFns run p)

/-- Not-found failure of the on-demand CFG operation. -/
inductive CfgError where
  | notFound (msg : String)
  deriving DecidableEq, Repr

/-- The record returned by `generateFileCfg`. -/
structure FileCfgResult where
  node_count : Nat
  edge_count : Nat
  graph_reference : String
  deriving DecidableEq, Repr

/-- Lookup of a cached run by repository name. -/
def lookupRun (store : List RunCache) (repoName : String) : Option RunCache :=
  store.find? (fun r => r.repoName == repoName)

/-- Modelled from the spec: `generateFileCfg(repo_name, file_path)` — fails
with a not-found error when the run is unknown/expired or the file was not
part of the selected set; otherwise returns node count, edge count and a
reference to the retrievable exchange-format artifact. -/
def generateFileCfg (store : List RunCache) (repoName filePath : String) :
    Except CfgError FileCfgResult :=
  match lookupRun store repoName with
  | none => Except.error (CfgError.notFound "Repository analysis not found")
  | some run =>
      if filePath ∈ run.selectedPaths then
        let g := fileGraph run filePath
        Except.ok ⟨g.nodes.length, g.edges.length,
          repoName ++ "/" ++ filePath ++ ".graphml"⟩
      else
        Except.error (CfgError.notFound "File not in the selected set")

/-- Embedded from `RepoForm.handleSubmit`: when the repository URL is empty
after trimming, set a validation error and return without fetching;
otherwise POST the URL and threshold to the backend. -/
def handleSubmit (repoUrl : String) (threshold : ℤ) : SubmitOutcome :=
  if repoUrl.trim = "" then
    SubmitOutcome.validationMessage "Please enter a valid repository URL."
  else
    SubmitOutcome.requestSent repoUrl threshold

/-- Concrete two-file repository for instantiating the quantified
theorems. -/
def wFileA : SourceFile := ⟨"a.js", ⟨[⟨"f", [], ["g"]⟩], 1, 0, 10⟩⟩

/-- Second concrete file. -/
def wFileB : SourceFile := ⟨"b.js", ⟨[⟨"g", [], []⟩], 0, 1, 30⟩⟩

/-- Unit weights for the concrete instantiations. -/
def wWeights : Weights := ⟨1, 1, 1, 1, 1⟩

/-- Concrete resolver knowing one repository. -/
def wResolve : String → Option (List SourceFile) :=
  fun s => if s = "repo" then some [wFileA, wFileB] else none

/-- Concrete self-recursive function: its body calls `f` itself. -/
def wRecFn : FnDef :=
  ⟨"f", [Stmt.assign ["x"] [],
         Stmt.cond ["x"] [Stmt.callSt "f" ["x"]] [], Stmt.ret]⟩

/-- Concrete cached run for the artifact-store instantiations. -/
def wRun : RunCache := ⟨"r", 4, ["a.js"], [⟨"a.js", [wRecFn]⟩]⟩

/-! ## Theorems -/

theorem mem_selectedFiles (W : Weights) (repo : List SourceFile) (t : ℤ)
    (f : SourceFile) :
    f ∈ selectedFiles W repo t ↔ f ∈ repo ∧ (t : ℚ) ≤ score W repo f := by
  simp [selectedFiles, List.mem_filter]

theorem mem_excludedFiles (W : Weights) (repo : List SourceFile) (t : ℤ)
    (f : SourceFile) :
    f ∈ excludedFiles W repo t ↔ f ∈ repo ∧ ¬ (t : ℚ) ≤ score W repo f := by
  simp [excludedFiles, List.mem_filter]

theorem length_filter_bool_partition {α : Type} (l : List α) (p : α → Bool) :
    (l.filter p).length + (l.filter (fun a => !(p a))).length = l.length := by
  induction l with
  | nil => rfl
  | cons a l ih => cases h : p a <;> simp [List.filter_cons, h] <;> omega

/-- C1: for every analysis run, a file is in the selected set iff its score
is at least the caller-supplied threshold (an integer in `[1,10]`); ties at
the boundary are included since the comparison is `score ≥ threshold`. -/
theorem selected_iff_score_ge_threshold (W : Weights)
    (repo : List SourceFile) (t : ℤ) (_ht : 1 ≤ t ∧ t ≤ 10)
    (f : SourceFile) :
    f ∈ selectedFiles W repo t ↔ f ∈ repo ∧ (t : ℚ) ≤ score W repo f :=
  mem_selectedFiles W repo t f

/-- Witness for C1 at the concrete two-file repository and threshold 2. -/
theorem selected_iff_score_ge_threshold_witness :
    (1 ≤ (2 : ℤ) ∧ (2 : ℤ) ≤ 10) ∧
      (wFileA ∈ selectedFiles wWeights [wFileA, wFileB] 2 ↔
        wFileA ∈ [wFileA, wFileB] ∧
          ((2 : ℤ) : ℚ) ≤ score wWeights [wFileA, wFileB] wFileA) :=
  ⟨by decide,
    selected_iff_score_ge_threshold wWeights [wFileA, wFileB] 2
      (by decide) wFileA⟩

/-- C2: the selected and uncapped excluded counts of a run partition the
analyzed files, so their sum is `files_analyzed`; the cap to 20 applies only
to the reported `excluded_files` list, never to `excluded_count`. -/
theorem selected_plus_excluded_eq_analyzed (W : Weights) (name : String)
    (files : List SourceFile) (t : ℤ) :
    (runAnalysis W name files t).filtering.selected_count
        + (runAnalysis W name files t).filtering.excluded_count
      = (runAnalysis W name files t).statistics.files_analyzed
    ∧ (runAnalysis W name files t).filtering.excluded_count
      = (excludedFiles W files t).length := by
  refine ⟨?_, rfl⟩
  show (selectedFiles W files t).length + (excludedFiles W files t).length
    = files.length
  have h := length_filter_bool_partition files
    (fun f => decide ((t : ℚ) ≤ score W files f))
  simpa [selectedFiles, excludedFiles, ← decide_not] using h

/-- C3: raising the threshold never adds a file — for fixed files and
weights and `t1 < t2`, the set selected at `t2` is contained in the set
selected at `t1`. -/
theorem selected_antitone_in_threshold (W : Weights)
    (repo : List SourceFile) (t1 t2 : ℤ) (h : t1 < t2) :
    selectedFiles W repo t2 ⊆ selectedFiles W repo t1 := by
  intro f hf
  rcases (mem_selectedFiles W repo t2 f).mp hf with ⟨hrepo, hsc⟩
  refine (mem_selectedFiles W repo t1 f).mpr ⟨hrepo, le_trans ?_ hsc⟩
  exact_mod_cast h.le

/-- Witness for C3 with thresholds 1 < 2. -/
theorem selected_antitone_in_threshold_witness :
    (1 : ℤ) < 2 ∧
      selectedFiles wWeights [wFileA, wFileB] 2
        ⊆ selectedFiles wWeights [wFileA, wFileB] 1 :=
  ⟨by decide,
    selected_antitone_in_threshold wWeights [wFileA, wFileB] 1 2 (by decide)⟩

/-- C4: the analysis is deterministic — two `start` calls with identical
inputs return identical results (statistics, selected/excluded sets and
their order), and `generateFileCfg` called twice with the same arguments
returns structurally identical graphs. -/
theorem start_deterministic (W : Weights)
    (resolve : String → Option (List SourceFile)) (r1 r2 : String)
    (t1 t2 : ℤ) (h1 : r1 = r2) (h2 : t1 = t2) (store : List RunCache)
    (n1 n2 p1 p2 : String) (h3 : n1 = n2) (h4 : p1 = p2) :
    start W resolve r1 t1 = start W resolve r2 t2
    ∧ generateFileCfg store n1 p1 = generateFileCfg store n2 p2 := by
  subst h1; subst h2; subst h3; subst h4
  exact ⟨rfl, rfl⟩

/-- Witness for C4 at the concrete resolver and store. -/
theorem start_deterministic_witness :
    "repo" = "repo" ∧ (4 : ℤ) = 4 ∧ "r" = "r" ∧ "a.js" = "a.js" ∧
      (start wWeights wResolve "repo" 4 = start wWeights wResolve "repo" 4
        ∧ generateFileCfg [wRun] "r" "a.js" = generateFileCfg [wRun] "r" "a.js") :=
  ⟨rfl, rfl, rfl, rfl,
    start_deterministic wWeights wResolve "repo" "repo" 4 4 rfl rfl
      [wRun] "r" "r" "a.js" "a.js" rfl rfl⟩

/-- C6: `start` fails with a validation error exactly when the threshold is
outside the integer range `[1,10]` or the repository identifier does not
resolve; for an in-range threshold and a resolvable repository no
validation error is raised. -/
theorem start_validation_error_iff (W : Weights)
    (resolve : String → Option (List SourceFile)) (repoId : String)
    (t : ℤ) :
    (∃ e, start W resolve repoId t = Except.error e)
      ↔ (t < 1 ∨ 10 < t ∨ resolve repoId = none) := by
  unfold start
  by_cases h : t < 1 ∨ 10 < t
  · simp [h]
    tauto
  · cases hr : resolve repoId <;> simp [h, hr]

theorem excludedSorted_sorted (W : Weights) (repo : List SourceFile)
    (t : ℤ) : List.Sorted scoreGE (excludedSorted W repo t) :=
  List.sorted_insertionSort scoreGE _

/-- C5: the excluded-files list reported by a run is capped to at most 20
entries, those entries come from the excluded set, every reported entry
scores at least as high as every excluded entry beyond the cap, and the
selected-files list is reported uncapped. -/
theorem excluded_report_top20 (W : Weights) (name : String)
    (repo : List SourceFile) (t : ℤ) :
    (excludedReport W repo t).length ≤ 20
    ∧ (∀ x ∈ excludedReport W repo t,
        ∃ f ∈ excludedFiles W repo t, toScored W repo f = x)
    ∧ (∀ x ∈ excludedReport W repo t,
        ∀ y ∈ (excludedSorted W repo t).drop 20, y.fscore ≤ x.fscore)
    ∧ (runAnalysis W name repo t).filtering.selected_files
        = (selectedFiles W repo t).map (toScored W repo)
    ∧ (runAnalysis W name repo t).filtering.excluded_files
        = excludedReport W repo t := by
  refine ⟨?_, ?_, ?_, rfl, rfl⟩
  · exact List.length_take_le 20 _
  · intro x hx
    have hx' : x ∈ excludedSorted W repo t := List.mem_of_mem_take hx
    have hx2 : x ∈ (excludedFiles W repo t).map (toScored W repo) :=
      (List.perm_insertionSort scoreGE _).mem_iff.mp hx'
    rcases List.mem_map.mp hx2 with ⟨f, hf, hfe⟩
    exact ⟨f, hf, hfe⟩
  · intro x hx y hy
    exact (excludedSorted_sorted W repo t).rel_of_mem_take_of_mem_drop hx hy

/-- Witness for C5 at the concrete two-file repository. -/
theorem excluded_report_top20_witness :
    (excludedReport wWeights [wFileA, wFileB] 2).length ≤ 20
    ∧ (∀ x ∈ excludedReport wWeights [wFileA, wFileB] 2,
        ∃ f ∈ excludedFiles wWeights [wFileA, wFileB] 2,
          toScored wWeights [wFileA, wFileB] f = x)
    ∧ (∀ x ∈ excludedReport wWeights [wFileA, wFileB] 2,
        ∀ y ∈ (excludedSorted wWeights [wFileA, wFileB] 2).drop 20,
          y.fscore ≤ x.fscore)
    ∧ (runAnalysis wWeights "repo" [wFileA, wFileB] 2).filtering.selected_files
        = (selectedFiles wWeights [wFileA, wFileB] 2).map
            (toScored wWeights [wFileA, wFileB])
    ∧ (runAnalysis wWeights "repo" [wFileA, wFileB] 2).filtering.excluded_files
        = excludedReport wWeights [wFileA, wFileB] 2 :=
  excluded_report_top20 wWeights "repo" [wFileA, wFileB] 2

theorem calls_extendBlock (b : Nat) (d u : List String) (st : Builder) :
    (extendBlock b d u st).calls = st.calls := rfl

theorem calls_allocNode (k : NodeKind) (d u : List String) (st : Builder) :
    (allocNode k d u st).calls = st.calls := rfl

theorem calls_stepAssign (d u : List String) (st : Builder) :
    (stepAssign d u st).calls = st.calls := by
  unfold stepAssign
  cases st.cur <;> cases st.inBlock <;> rfl

theorem calls_stepCall (c : String) (a : List String) (st : Builder) :
    (stepCall c a st).calls = st.calls ++ [(st.nextId, c)] := rfl

theorem calls_stepRet (st : Builder) : (stepRet st).calls = st.calls := rfl

theorem calls_allocJoin (c1 : Option Nat) (k1 : EdgeKind) (st : Builder) :
    (allocJoin c1 k1 st).calls = st.calls := by
  unfold allocJoin; cases c1 <;> rfl

theorem calls_addLoopBack (b : Nat) (st : Builder) :
    (addLoopBack b st).calls = st.calls := by
  unfold addLoopBack; cases st.cur <;> rfl

theorem calls_enterArm (b : Nat) (k : EdgeKind) (st : Builder) :
    (enterArm b k st).calls = st.calls := rfl

theorem calls_reopenBlock (st : Builder) :
    (reopenBlock st).calls = st.calls := rfl

theorem buildStmts_callees (l : List Stmt) (st : Builder) :
    (buildStmts l st).calls.map Prod.snd
      = st.calls.map Prod.snd ++ callsOf l := by
  induction l, st using buildStmts.induct with
  | _ => simp_all +zetaDelta [buildStmts, callsOf, calls_stepAssign,
      calls_stepCall, calls_stepRet, calls_allocNode, calls_allocJoin,
      calls_addLoopBack, calls_enterArm, calls_reopenBlock,
      List.map_append, List.append_assoc]

theorem nodes_allocNode (k : NodeKind) (d u : List String) (st : Builder) :
    (allocNode k d u st).nodes.length = st.nodes.length + 1 := by
  simp [allocNode]

theorem nodes_extendBlock (b : Nat) (d u : List String) (st : Builder) :
    (extendBlock b d u st).nodes.length = st.nodes.length := by
  simp [extendBlock]

theorem nodes_stepAssign (d u : List String) (st : Builder) :
    (stepAssign d u st).nodes.length ≤ st.nodes.length + 1 := by
  unfold stepAssign
  cases st.cur <;> cases st.inBlock <;>
    simp [nodes_allocNode, nodes_extendBlock]

theorem nodes_stepCall (c : String) (a : List String) (st : Builder) :
    (stepCall c a st).nodes.length = st.nodes.length + 1 := by
  simp [stepCall, nodes_allocNode]

theorem nodes_stepRet (st : Builder) :
    (stepRet st).nodes.length = st.nodes.length := rfl

theorem nodes_allocJoin (c1 : Option Nat) (k1 : EdgeKind) (st : Builder) :
    (allocJoin c1 k1 st).nodes.length = st.nodes.length + 1 := by
  unfold allocJoin; cases c1 <;> simp [nodes_allocNode]

theorem nodes_addLoopBack (b : Nat) (st : Builder) :
    (addLoopBack b st).nodes.length = st.nodes.length := by
  unfold addLoopBack; cases st.cur <;> rfl

theorem nodes_enterArm (b : Nat) (k : EdgeKind) (st : Builder) :
    (enterArm b k st).nodes = st.nodes := rfl

theorem nodes_reopenBlock (st : Builder) :
    (reopenBlock st).nodes = st.nodes := rfl

theorem buildStmts_nodes_le (l : List Stmt) (st : Builder) :
    (buildStmts l st).nodes.length ≤ st.nodes.length + stmtWeight l := by
  induction l, st using buildStmts.induct with
  | case1 st => simp [buildStmts, stmtWeight]
  | case2 d u rest st ih =>
      have h := nodes_stepAssign d u st
      simp only [buildStmts, stmtWeight]
      omega
  | case3 c a rest st ih =>
      have h := nodes_stepCall c a st
      simp only [buildStmts, stmtWeight]
      omega
  | case4 rest st ih =>
      have h := nodes_stepRet st
      simp only [buildStmts, stmtWeight]
      omega
  | case5 u tb eb rest st ih1 ih2 ih3 ih4 ih5 =>
      simp_all +zetaDelta only [buildStmts, stmtWeight, nodes_allocNode,
        nodes_allocJoin, nodes_enterArm, nodes_reopenBlock, List.length_map]
      omega
  | case6 u body rest st ih1 ih2 ih3 =>
      simp_all +zetaDelta only [buildStmts, stmtWeight, nodes_allocNode,
        nodes_addLoopBack, nodes_enterArm, List.length_map]
      omega

theorem buildFn_callees (f : FnDef) :
    (buildFn f).calls.map Prod.snd = callsOf f.body := by
  unfold buildFn
  simp [buildStmts_callees, initBuilder]

theorem exists_call_node (f : FnDef) (c : String) (hc : c ∈ callsOf f.body) :
    ∃ cid, (cid, c) ∈ (buildFn f).calls := by
  have h := buildFn_callees f
  rw [← h] at hc
  rcases List.mem_map.mp hc with ⟨⟨cid, c'⟩, hmem, hcc⟩
  cases hcc
  exact ⟨cid, hmem⟩

theorem callEdge_mem_global (tbl : List FnDef) (f h : FnDef) (cid : Nat)
    (c : String) (hf : f ∈ tbl) (hc : (cid, c) ∈ (buildFn f).calls)
    (hlk : lookupFn tbl c = some h) :
    GEdge.mk f.name cid h.name 0 EdgeKind.callEdge ∈ (globalCfg tbl).edges := by
  unfold globalCfg
  simp only [List.mem_append]
  right
  unfold callEdges
  rw [List.mem_flatMap]
  refine ⟨f, hf, ?_⟩
  rw [List.mem_flatMap]
  exact ⟨(cid, c), hc, by simp [callStitch, hlk]⟩

/-- C7: CFG construction for a directly self-recursive function is a total
computation producing a finite graph (node count bounded by the statement
weight of the body), and the global CFG contains a call edge from the
recursive call node to the function's own entry node (local id 0). -/
theorem self_recursive_call_edge (tbl : List FnDef) (f : FnDef)
    (hf : f ∈ tbl) (hself : f.name ∈ callsOf f.body)
    (hlk : lookupFn tbl f.name = some f) :
    (∃ cid, GEdge.mk f.name cid f.name 0 EdgeKind.callEdge
        ∈ (globalCfg tbl).edges)
    ∧ (buildFn f).nodes.length ≤ 2 + stmtWeight f.body := by
  constructor
  · rcases exists_call_node f f.name hself with ⟨cid, hc⟩
    exact ⟨cid, callEdge_mem_global tbl f f cid f.name hf hc hlk⟩
  · have h := buildStmts_nodes_le f.body initBuilder
    unfold buildFn
    simp [initBuilder] at h ⊢
    omega

/-- Witness for C7 at the concrete self-recursive function. -/
theorem self_recursive_call_edge_witness :
    wRecFn ∈ [wRecFn] ∧ wRecFn.name ∈ callsOf wRecFn.body ∧
      lookupFn [wRecFn] wRecFn.name = some wRecFn ∧
      ((∃ cid, GEdge.mk wRecFn.name cid wRecFn.name 0 EdgeKind.callEdge
          ∈ (globalCfg [wRecFn]).edges)
        ∧ (buildFn wRecFn).nodes.length ≤ 2 + stmtWeight wRecFn.body) :=
  ⟨List.mem_singleton.mpr rfl, by simp [wRecFn, callsOf], rfl,
    self_recursive_call_edge [wRecFn] wRecFn (List.mem_singleton.mpr rfl)
      (by simp [wRecFn, callsOf]) rfl⟩

theorem mem_lookupTab_map {α : Type} (l : List Nat) (F : Nat → List α)
    (m : Nat) (d : α)
    (hd : d ∈ lookupTab (l.map (fun n => (n, F n))) m) :
    ∃ n0, n0 ∈ l ∧ d ∈ F n0 := by
  unfold lookupTab at hd
  cases hfind : List.find? (fun p => p.1 == m) (l.map (fun n => (n, F n))) with
  | none => rw [hfind] at hd; cases hd
  | some p =>
      rw [hfind] at hd
      have hp := List.mem_of_find?_eq_some hfind
      rcases List.mem_map.mp hp with ⟨n0, hn0, hpe⟩
      subst hpe
      exact ⟨n0, hn0, hd⟩

theorem reachOut_src_mem (g : FnCfg) (tab : List (Nat × List (Nat × String)))
    (hTab : ∀ n d, d ∈ lookupTab tab n → d.1 ∈ allIds g)
    (p : Nat) (d : Nat × String) (hd : d ∈ reachOut g tab p) :
    d.1 ∈ allIds g := by
  unfold reachOut at hd
  cases hfind : g.nodes.find? (fun n => n.id == p) with
  | none => rw [hfind] at hd; cases hd
  | some np =>
      rw [hfind] at hd
      rcases List.mem_append.mp hd with h1 | h2
      · rcases List.mem_map.mp h1 with ⟨v, hv, rfl⟩
        have hnp : np ∈ g.nodes := List.mem_of_find?_eq_some hfind
        exact List.mem_map.mpr ⟨np, hnp, rfl⟩
      · exact hTab p d (List.mem_filter.mp h2).1

theorem reachIterate_src_mem (g : FnCfg) (k : Nat) :
    ∀ n d, d ∈ lookupTab ((reachStep g)^[k] (reachInit g)) n →
      d.1 ∈ allIds g := by
  induction k with
  | zero =>
      intro n d hd
      simp only [Function.iterate_zero, id_eq] at hd
      unfold reachInit at hd
      rcases mem_lookupTab_map (allIds g)
        (fun _ => ([] : List (Nat × String))) n d hd with ⟨n0, _, hmem⟩
      cases hmem
  | succ k ih =>
      intro n d hd
      rw [Function.iterate_succ_apply'] at hd
      unfold reachStep at hd
      rcases mem_lookupTab_map (allIds g)
        (fun n => (preds g n).flatMap
          (reachOut g ((reachStep g)^[k] (reachInit g)))) n d hd with
        ⟨n0, _, hmem⟩
      rcases List.mem_flatMap.mp hmem with ⟨p, _, hout⟩
      exact reachOut_src_mem g _ ih p d hout

theorem reachTable_src_mem (g : FnCfg) (n : Nat) (d : Nat × String)
    (hd : d ∈ lookupTab (reachTable g) n) : d.1 ∈ allIds g := by
  unfold reachTable at hd
  exact reachIterate_src_mem g _ n d hd

/-- C8: the PDG of a function has exactly its CFG's node set, keeps every
CFG edge, and superimposes only dependence edges whose endpoints are
existing CFG node identities — it removes nothing and rewrites no node. -/
theorem pdg_superimposes_cfg (g : FnCfg) :
    (pdgOf g).nodes = g.nodes ∧ (pdgOf g).cfgEdges = g.edges
    ∧ ∀ e ∈ (pdgOf g).depEdges, e.src ∈ allIds g ∧ e.tgt ∈ allIds g := by
  refine ⟨rfl, rfl, ?_⟩
  intro e he
  rcases List.mem_append.mp he with hc | hd
  · simp only [controlDepEdges] at hc
    rcases List.mem_flatMap.mp hc with ⟨b, hb, he2⟩
    rcases List.mem_map.mp he2 with ⟨m, hm, rfl⟩
    exact ⟨List.mem_map.mpr ⟨b, (List.mem_filter.mp hb).1, rfl⟩,
      (List.mem_filter.mp hm).1⟩
  · simp only [dataDepEdges] at hd
    rcases List.mem_flatMap.mp hd with ⟨n, hn, he2⟩
    rcases List.mem_map.mp he2 with ⟨dp, hdp, rfl⟩
    exact ⟨reachTable_src_mem g n.id dp (List.mem_filter.mp hdp).1,
      List.mem_map.mpr ⟨n, hn, rfl⟩⟩

/-- Witness for C8 at the CFG of the concrete recursive function. -/
theorem pdg_superimposes_cfg_witness :
    (pdgOf (buildFn wRecFn)).nodes = (buildFn wRecFn).nodes
    ∧ (pdgOf (buildFn wRecFn)).cfgEdges = (buildFn wRecFn).edges
    ∧ ∀ e ∈ (pdgOf (buildFn wRecFn)).depEdges,
        e.src ∈ allIds (buildFn wRecFn) ∧ e.tgt ∈ allIds (buildFn wRecFn) :=
  pdg_superimposes_cfg (buildFn wRecFn)

/-- C9: `generateFileCfg` fails with a not-found error exactly when the run
is unknown or the file was not part of its selected set; otherwise it
returns the record of node count, edge count and the reference to the
retrievable exchange-format artifact for that file's on-demand CFG. -/
theorem generateFileCfg_not_found_iff (store : List RunCache)
    (rn fp : String) :
    ((∃ m, generateFileCfg store rn fp = Except.error (CfgError.notFound m))
      ↔ (lookupRun store rn = none
          ∨ ∃ run, lookupRun store rn = some run ∧ fp ∉ run.selectedPaths))
    ∧ ∀ run, lookupRun store rn = some run → fp ∈ run.selectedPaths →
        generateFileCfg store rn fp = Except.ok
          ⟨(fileGraph run fp).nodes.length, (fileGraph run fp).edges.length,
            rn ++ "/" ++ fp ++ ".graphml"⟩ := by
  constructor
  · unfold generateFileCfg
    cases hr : lookupRun store rn with
    | none => simp
    | some run =>
        by_cases hs : fp ∈ run.selectedPaths <;> simp [hs]
  · intro run hrun hsel
    unfold generateFileCfg
    rw [hrun]
    simp [hsel]

/-- Witness for C9 at the concrete cached run. -/
theorem generateFileCfg_witness :
    lookupRun [wRun] "r" = some wRun ∧ "a.js" ∈ wRun.selectedPaths ∧
      generateFileCfg [wRun] "r" "a.js" = Except.ok
        ⟨(fileGraph wRun "a.js").nodes.length,
          (fileGraph wRun "a.js").edges.length,
          "r" ++ "/" ++ "a.js" ++ ".graphml"⟩ :=
  ⟨rfl, by simp [wRun],
    (generateFileCfg_not_found_iff [wRun] "r" "a.js").2 wRun rfl
      (by simp [wRun])⟩

/-- C10: the frontend form submit issues no backend request and shows a
validation message exactly when the repository URL is empty after trimming;
the request is sent exactly when the trimmed URL is non-empty. -/
theorem submit_requires_nonempty_url (u : String) (t : ℤ) :
    (handleSubmit u t
        = SubmitOutcome.validationMessage "Please enter a valid repository URL."
      ↔ u.trim = "")
    ∧ (handleSubmit u t = SubmitOutcome.requestSent u t ↔ u.trim ≠ "") := by
  unfold handleSubmit
  by_cases h : u.trim = "" <;> simp [h]

end CodeIQ
